import Mathlib

/-!
Shallow embedding of the D-Bus name validators, message-type conversion,
error plumbing and dispatch glue of the rust-systemd repository
(src/bus/mod.rs, src/bus.rs, src/bus/types.rs,
libsystemd-sys/src/bus/protocol.rs), with theorems checking the
natural-language specification against it.

Byte strings are `List Nat` (each entry one byte).  Fallible constructors
return `Except VErr _`; the distinct static error-message strings of the
source are represented one-to-one by the constructors of `VErr`.
-/

namespace RustSystemd

/-- One constructor per distinct static error-message string returned by the
validators in src/bus/mod.rs and src/bus.rs.  Two rejections carry the same
message exactly when they yield the same constructor. -/
inductive VErr where
  /-- "Path must have at least 1 character ('/')" -/
  | pathAtLeastOne
  /-- "Path must begin with '/'" -/
  | pathBeginSlash
  /-- "Path must not have 2 '/' next to each other" -/
  | pathDoubleSlash
  /-- "Path must not end in '/' unless it is the root path" -/
  | pathTrailingSlash
  /-- "Invalid character in path, only '[A-Z][a-z][0-9]_/' allowed" -/
  | pathInvalidChar
  /-- "Path must be terminated in a '\\0' byte (for use by sd-bus)" -/
  | pathNoNul
  /-- "Name must have more than 0 characters" -/
  | nameEmpty
  /-- "Name must not begin with '.'" -/
  | nameBeginDot
  /-- "Name must only begin with '[A-Z][a-z]_'" -/
  | nameBeginChar
  /-- "Name must not have 2 '.' next to each other" -/
  | nameDoubleDot
  /-- "Name element must not start with '[0-9]'" -/
  | nameElemDigit
  /-- "Name must not end in '.'" -/
  | nameEndDot
  /-- "Name must have at least 2 elements" -/
  | nameTwoElems
  /-- "Invalid character in interface name, only '[A-Z][a-z][0-9]_\\.' allowed" -/
  | ifaceInvalidChar
  /-- "Name must be terminated in a '\\0' byte (for use by sd-bus)" -/
  | nameNoNul
  /-- "Must be shorter than 255 characters" -/
  | nameTooLong
  /-- "Elements may not be empty" -/
  | busElemEmpty
  /-- "Invalid character in bus name, only '[A-Z][a-z][0-9]_\\.' allowed" -/
  | busInvalidChar
  /-- "Must begin with '[A-Z][a-z]_'" -/
  | memberBeginChar
  /-- "Invalid character in member name, only '[A-Z][a-z][0-9]_' allowed" -/
  | memberInvalidChar
  deriving DecidableEq, Repr

/-- Rust match arm `b'A'..=b'Z' | b'a'..=b'z' | b'0'..=b'9' | b'_'`. -/
def isWordChar (c : Nat) : Bool :=
  (65 ≤ c && c ≤ 90) || (97 ≤ c && c ≤ 122) || (48 ≤ c && c ≤ 57) || c == 95

/-- Rust match arm `b'A'..=b'Z' | b'a'..=b'z' | b'_'`. -/
def isNameStart (c : Nat) : Bool :=
  (65 ≤ c && c ≤ 90) || (97 ≤ c && c ≤ 122) || c == 95

/-- Rust match arm `b'0'..=b'9'`. -/
def isDigit (c : Nat) : Bool :=
  48 ≤ c && c ≤ 57

/-- Rust match arm `b'A'..=b'Z' | b'a'..=b'z' | b'_' | b'-'`. -/
def isBusChar (c : Nat) : Bool :=
  (65 ≤ c && c ≤ 90) || (97 ≤ c && c ≤ 122) || c == 95 || c == 45

/-- Did a validator accept? -/
def isAccept {ε α : Type} : Except ε α → Bool
  | .ok _ => true
  | .error _ => false

/-- The `for w in b.windows(2)` loop of `ObjectPath::from_bytes`
(src/bus/mod.rs): `prev`/`c` are the two bytes of the current window,
`blen` is `b.len()`.  Falls off the end with the missing-NUL error. -/
def ObjectPath.loop (blen : Nat) : Nat → List Nat → Except VErr Unit
  | _, [] => .error .pathNoNul
  | prev, c :: rest =>
    if c == 47 then
      if prev == 47 then .error .pathDoubleSlash
      else ObjectPath.loop blen c rest
    else if isWordChar c then ObjectPath.loop blen c rest
    else if c == 0 then
      if prev == 47 && blen != 2 then .error .pathTrailingSlash
      else .ok ()
    else .error .pathInvalidChar

/-- `ObjectPath::from_bytes` (src/bus/mod.rs lines 71-107). -/
def ObjectPath.from_bytes (b : List Nat) : Except VErr (List Nat) :=
  match b with
  | [] => .error .pathAtLeastOne
  | b0 :: rest =>
    if b0 != 47 then .error .pathBeginSlash
    else (ObjectPath.loop (b0 :: rest).length b0 rest).map fun _ => b0 :: rest

/-- The windows(2) loop of `InterfaceName::from_bytes` (src/bus/mod.rs),
carrying the running `periods` count. -/
def InterfaceName.loop (blen : Nat) : Nat → Nat → List Nat → Except VErr Unit
  | _, _, [] => .error .nameNoNul
  | periods, prev, c :: rest =>
    if c == 46 then
      if prev == 46 then .error .nameDoubleDot
      else InterfaceName.loop blen (periods + 1) c rest
    else if isNameStart c then InterfaceName.loop blen periods c rest
    else if isDigit c then
      if prev == 46 then .error .nameElemDigit
      else InterfaceName.loop blen periods c rest
    else if c == 0 then
      if prev == 46 && blen != 1 then .error .nameEndDot
      else if periods < 1 then .error .nameTwoElems
      else .ok ()
    else .error .ifaceInvalidChar

/-- `InterfaceName::from_bytes` (src/bus/mod.rs lines 175-229). -/
def InterfaceName.from_bytes (b : List Nat) : Except VErr (List Nat) :=
  match b with
  | [] => .error .nameEmpty
  | b0 :: rest =>
    if b0 == 46 then .error .nameBeginDot
    else if isNameStart b0 then
      (InterfaceName.loop (b0 :: rest).length 0 b0 rest).map fun _ => b0 :: rest
    else .error .nameBeginChar

/-- The windows(2) loop of `BusName::from_bytes` (src/bus/mod.rs), carrying
the `is_unique` flag set from a leading `:` and the `periods` count. -/
def BusName.loop (blen : Nat) (is_unique : Bool) :
    Nat → Nat → List Nat → Except VErr Unit
  | _, _, [] => .error .nameNoNul
  | periods, prev, c :: rest =>
    if c == 46 then
      if prev == 46 || prev == 58 then .error .busElemEmpty
      else BusName.loop blen is_unique (periods + 1) c rest
    else if isBusChar c then BusName.loop blen is_unique periods c rest
    else if isDigit c then
      if prev == 46 && !is_unique then .error .nameElemDigit
      else BusName.loop blen is_unique periods c rest
    else if c == 0 then
      if prev == 46 && blen != 1 then .error .nameEndDot
      else if periods < 1 then .error .nameTwoElems
      else .ok ()
    else .error .busInvalidChar

/-- `BusName::from_bytes` (src/bus/mod.rs lines 295-356). -/
def BusName.from_bytes (b : List Nat) : Except VErr (List Nat) :=
  match b with
  | [] => .error .nameEmpty
  | b0 :: rest =>
    if (b0 :: rest).length > 256 then .error .nameTooLong
    else if b0 == 46 then .error .nameBeginDot
    else if isBusChar b0 then
      (BusName.loop (b0 :: rest).length false 0 b0 rest).map fun _ => b0 :: rest
    else if b0 == 58 then
      (BusName.loop (b0 :: rest).length true 0 b0 rest).map fun _ => b0 :: rest
    else .error .nameBeginChar

/-- The `for c in b` loop of `MemberName::from_bytes` (src/bus/mod.rs):
scans every byte of `b` from the start and accepts at the first NUL. -/
def MemberName.loop : List Nat → Except VErr Unit
  | [] => .error .nameNoNul
  | c :: rest =>
    if isWordChar c then MemberName.loop rest
    else if c == 0 then .ok ()
    else .error .memberInvalidChar

/-- `MemberName::from_bytes` (src/bus/mod.rs lines 418-449). -/
def MemberName.from_bytes (b : List Nat) : Except VErr (List Nat) :=
  if b.length < 2 then .error .nameEmpty
  else if b.length > 256 then .error .nameTooLong
  else
    match b with
    | [] => .error .memberBeginChar
    | b0 :: rest =>
      if isNameStart b0 then (MemberName.loop (b0 :: rest)).map fun _ => b0 :: rest
      else .error .memberBeginChar

/-!
The legacy validators of src/bus.rs (the pre-rewrite module).  They are
embedded separately, character class by character class, so that the
equivalence with the current validators above is a theorem, not an
assumption.
-/
namespace Legacy

/-- The windows(2) loop of the legacy `ObjectPath::from_bytes` (src/bus.rs). -/
def ObjectPath.loop (blen : Nat) : Nat → List Nat → Except VErr Unit
  | _, [] => .error .pathNoNul
  | prev, c :: rest =>
    if c == 47 then
      if prev == 47 then .error .pathDoubleSlash
      else ObjectPath.loop blen c rest
    else if isWordChar c then ObjectPath.loop blen c rest
    else if c == 0 then
      if prev == 47 && blen != 2 then .error .pathTrailingSlash
      else .ok ()
    else .error .pathInvalidChar

/-- Legacy `ObjectPath::from_bytes` (src/bus.rs lines 32-66). -/
def ObjectPath.from_bytes (b : List Nat) : Except VErr (List Nat) :=
  match b with
  | [] => .error .pathAtLeastOne
  | b0 :: rest =>
    if b0 != 47 then .error .pathBeginSlash
    else (ObjectPath.loop (b0 :: rest).length b0 rest).map fun _ => b0 :: rest

/-- The windows(2) loop of the legacy `InterfaceName::from_bytes` (src/bus.rs). -/
def InterfaceName.loop (blen : Nat) : Nat → Nat → List Nat → Except VErr Unit
  | _, _, [] => .error .nameNoNul
  | periods, prev, c :: rest =>
    if c == 46 then
      if prev == 46 then .error .nameDoubleDot
      else InterfaceName.loop blen (periods + 1) c rest
    else if isNameStart c then InterfaceName.loop blen periods c rest
    else if isDigit c then
      if prev == 46 then .error .nameElemDigit
      else InterfaceName.loop blen periods c rest
    else if c == 0 then
      if prev == 46 && blen != 1 then .error .nameEndDot
      else if periods < 1 then .error .nameTwoElems
      else .ok ()
    else .error .ifaceInvalidChar

/-- Legacy `InterfaceName::from_bytes` (src/bus.rs lines 120-169). -/
def InterfaceName.from_bytes (b : List Nat) : Except VErr (List Nat) :=
  match b with
  | [] => .error .nameEmpty
  | b0 :: rest =>
    if b0 == 46 then .error .nameBeginDot
    else if isNameStart b0 then
      (InterfaceName.loop (b0 :: rest).length 0 b0 rest).map fun _ => b0 :: rest
    else .error .nameBeginChar

/-- The windows(2) loop of the legacy `BusName::from_bytes` (src/bus.rs). -/
def BusName.loop (blen : Nat) (is_unique : Bool) :
    Nat → Nat → List Nat → Except VErr Unit
  | _, _, [] => .error .nameNoNul
  | periods, prev, c :: rest =>
    if c == 46 then
      if prev == 46 || prev == 58 then .error .busElemEmpty
      else BusName.loop blen is_unique (periods + 1) c rest
    else if isBusChar c then BusName.loop blen is_unique periods c rest
    else if isDigit c then
      if prev == 46 && !is_unique then .error .nameElemDigit
      else BusName.loop blen is_unique periods c rest
    else if c == 0 then
      if prev == 46 && blen != 1 then .error .nameEndDot
      else if periods < 1 then .error .nameTwoElems
      else .ok ()
    else .error .busInvalidChar

/-- Legacy `BusName::from_bytes` (src/bus.rs lines 224-278). -/
def BusName.from_bytes (b : List Nat) : Except VErr (List Nat) :=
  match b with
  | [] => .error .nameEmpty
  | b0 :: rest =>
    if (b0 :: rest).length > 256 then .error .nameTooLong
    else if b0 == 46 then .error .nameBeginDot
    else if isBusChar b0 then
      (BusName.loop (b0 :: rest).length false 0 b0 rest).map fun _ => b0 :: rest
    else if b0 == 58 then
      (BusName.loop (b0 :: rest).length true 0 b0 rest).map fun _ => b0 :: rest
    else .error .nameBeginChar

/-- The `for c in b` loop of the legacy `MemberName::from_bytes` (src/bus.rs). -/
def MemberName.loop : List Nat → Except VErr Unit
  | [] => .error .nameNoNul
  | c :: rest =>
    if isWordChar c then MemberName.loop rest
    else if c == 0 then .ok ()
    else .error .memberInvalidChar

/-- Legacy `MemberName::from_bytes` (src/bus.rs lines 328-356). -/
def MemberName.from_bytes (b : List Nat) : Except VErr (List Nat) :=
  if b.length < 2 then .error .nameEmpty
  else if b.length > 256 then .error .nameTooLong
  else
    match b with
    | [] => .error .memberBeginChar
    | b0 :: rest =>
      if isNameStart b0 then (MemberName.loop (b0 :: rest)).map fun _ => b0 :: rest
      else .error .memberBeginChar

end Legacy

/-!
Engine-status plumbing and the dispatch/call/marshalling glue.
-/

/-- A platform I/O-style error carrying an OS error code. -/
structure IoErr where
  code : Int
  deriving DecidableEq, Repr

/-- Modelled from the spec: the `ffi_result` helper / `sd_try!` macro used by
src/bus/mod.rs is not present under src/ (the bundled lib.rs predates it);
per the spec, "any engine call returning a negative status is mapped to a
platform I/O-style error carrying the negated status as an OS error code". -/
def ffi_result (r : Int) : Except IoErr Int :=
  if r < 0 then .error ⟨-r⟩ else .ok r

/-- A reference-counted native message handle; the opaque pointer is a `Nat`. -/
structure Message where
  raw : Nat
  deriving DecidableEq, Repr

/-- `Message::from_ptr`: wrap an engine-returned message pointer. -/
def Message.from_ptr (p : Nat) : Message := ⟨p⟩

/-- `BusRef::process` (src/bus/mod.rs lines 972-985).  Its inputs are the two
outputs of the single `sd_bus_process` engine call it makes: the status `r`
and the message out-pointer (`none` models a null pointer). -/
def BusRef.process (r : Int) (ptr : Option Nat) :
    Except IoErr (Option (Option Message)) :=
  match ffi_result r with
  | .error e => .error e
  | .ok r' =>
    if r' > 0 then
      match ptr with
      | none => .ok (some none)
      | some p => .ok (some (some (Message.from_ptr p)))
    else .ok none

/-- `sd_bus_error`: two engine-allocated C strings, each possibly null
(modelled as `Option` of a byte string). -/
structure RawError where
  name : Option (List Nat)
  message : Option (List Nat)
  deriving DecidableEq, Repr

/-- `RawError::is_set` (src/bus/mod.rs line 727): the name pointer is non-null. -/
def RawError.is_set (e : RawError) : Bool := e.name.isSome

/-- The cached `Error` (src/bus/mod.rs lines 585-589): the raw pair plus the
two string lengths. -/
structure Error where
  raw : RawError
  name_len : Nat
  message_len : Nat
  deriving DecidableEq, Repr

/-- `Error::from_raw` (src/bus/mod.rs lines 595-608): lengths are
`to_bytes_with_nul().len()`, i.e. string length plus one; a null message
gives zero. -/
def Error.from_raw (raw : RawError) : Error :=
  { raw := raw
    name_len := (raw.name.getD []).length + 1
    message_len :=
      match raw.message with
      | none => 0
      | some m => m.length + 1 }

/-- `RawError::into_result` (src/bus/mod.rs lines 698-704). -/
def RawError.into_result (e : RawError) : Except Error Unit :=
  if e.is_set then .error (Error.from_raw e) else .ok ()

/-- Modelled from the spec: the outcome of the opaque `sd_bus_call` engine
primitive is the error out-parameter it populated and the reply message
out-pointer. -/
structure CallOutcome where
  err : RawError
  reply : Nat
  deriving DecidableEq, Repr

/-- `MessageRef::call` (src/bus/mod.rs lines 1684-1698): invoke the engine,
then `e.into_result().map(|_| Message::from_ptr(r))`.  The integer status of
`sd_bus_call` is discarded by the source, so it does not appear here. -/
def MessageRef.call (o : CallOutcome) : Except Error Message :=
  (o.err.into_result).map fun _ => Message.from_ptr o.reply

/-!
The marshalling layer (src/bus/types.rs).  The engine-side message buffer is
modelled from the spec as a type-tagged container with an open/sealed flag, a
sequential write position at the end, and a sequential read position.
-/

/-- Modelled from the spec: the engine message container.  `body` is the list
of (wire type tag, stored value) cells, `rpos` the read cursor. -/
structure MsgBuf where
  sealed : Bool
  body : List (Nat × Int)
  rpos : Nat
  deriving DecidableEq, Repr

/-- Modelled from the spec: sealing finalizes a message for transmission. -/
def MsgBuf.seal (m : MsgBuf) : MsgBuf := { m with sealed := true }

/-- Modelled from the spec: `sd_bus_message_append_basic` behind
`MessageRef::append_basic_raw` appends one tagged cell at the write cursor
and fails on a sealed message (a negative engine status, here `-EPERM`
surfaced through `ffi_result`). -/
def append_basic_raw (m : MsgBuf) (dbus_type : Nat) (v : Int) :
    Except IoErr MsgBuf :=
  if m.sealed then .error ⟨1⟩
  else .ok { m with body := m.body ++ [(dbus_type, v)] }

/-- `MessageIter::read_basic_raw` (src/bus/mod.rs lines 1860-1878) over the
modelled `sd_bus_message_read_basic`: at the end of the container the engine
returns 0 and the binding yields `none`; on a matching tag it returns 1 and
the binding yields `some (cons v)`; a tag mismatch is a negative engine
status (here `-ENXIO`) surfaced through `ffi_result`. -/
def read_basic_raw {α : Type} (m : MsgBuf) (dbus_type : Nat) (cons : Int → α) :
    Except IoErr (Option α × MsgBuf) :=
  match m.body[m.rpos]? with
  | none => .ok (none, m)
  | some (t, v) =>
    if t == dbus_type then .ok (some (cons v), { m with rpos := m.rpos + 1 })
    else .error ⟨6⟩

/-- `impl ToSdBusMessage for bool` (src/bus/types.rs lines 139-145):
`let i: c_int = if *self { 1 } else { 0 }; append_basic_raw(b'b', &i)`. -/
def boolToMessage (v : Bool) (m : MsgBuf) : Except IoErr MsgBuf :=
  append_basic_raw m 98 (if v then 1 else 0)

/-- `impl FromSdBusMessage for bool` (src/bus/types.rs lines 147-154):
`read_basic_raw(b'b', |x: c_int| x != 0)`. -/
def boolFromMessage (m : MsgBuf) : Except IoErr (Option Bool × MsgBuf) :=
  read_basic_raw m 98 fun x => x != 0

/-!
Message types (src/bus/mod.rs lines 527-546 and
libsystemd-sys/src/bus/protocol.rs).
-/

def SD_BUS_MESSAGE_METHOD_CALL : Int := 1
def SD_BUS_MESSAGE_METHOD_RETURN : Int := 2
def SD_BUS_MESSAGE_METHOD_ERROR : Int := 3
def SD_BUS_MESSAGE_SIGNAL : Int := 4

inductive MessageType where
  | MethodCall
  | MethodReturn
  | MethodError
  | Signal
  deriving DecidableEq, Repr

/-- `MessageType::from_raw` (src/bus/mod.rs lines 537-545).  The source
matches `raw as c_int` against the four protocol constants and `panic!()`s
on anything else; the unrecoverable panic is modelled as `none`. -/
def MessageType.from_raw (raw : Nat) : Option MessageType :=
  if (raw : Int) == SD_BUS_MESSAGE_METHOD_CALL then some .MethodCall
  else if (raw : Int) == SD_BUS_MESSAGE_METHOD_RETURN then some .MethodReturn
  else if (raw : Int) == SD_BUS_MESSAGE_METHOD_ERROR then some .MethodError
  else if (raw : Int) == SD_BUS_MESSAGE_SIGNAL then some .Signal
  else none

/-!
Specification-side predicates on byte strings, used to state the grammar
claims.
-/

/-- The bytes of `b` strictly before its first NUL (all of `b` if none). -/
def nulBody : List Nat → List Nat
  | [] => []
  | c :: rest => if c == 0 then [] else c :: nulBody rest

/-- The bytes of `b` up to and including its first NUL (all of `b` if none). -/
def takeToNul : List Nat → List Nat
  | [] => []
  | c :: rest => if c == 0 then [0] else c :: takeToNul rest

/-- Does the byte string contain two consecutive `/` bytes? -/
def hasDoubleSlash : List Nat → Bool
  | [] => false
  | [_] => false
  | a :: b :: rest => (a == 47 && b == 47) || hasDoubleSlash (b :: rest)

/-- Does the byte string end in the two bytes `/` then NUL? -/
def endsSlashNul : List Nat → Bool
  | [] => false
  | [_] => false
  | [a, b] => a == 47 && b == 0
  | _ :: b :: c :: rest => endsSlashNul (b :: c :: rest)

/-- Last element of a byte string, with default `d` for the empty string. -/
def lastByte (d : Nat) : List Nat → Nat
  | [] => d
  | [c] => c
  | _ :: c :: rest => lastByte d (c :: rest)

/-- Number of `.` bytes. -/
def countDots : List Nat → Nat
  | [] => 0
  | c :: rest => (if c == 46 then 1 else 0) + countDots rest

/-- Split a byte string at `.` bytes; always returns at least one (possibly
empty) element. -/
def splitDot : List Nat → List (List Nat)
  | [] => [[]]
  | c :: rest =>
    if c == 46 then [] :: splitDot rest
    else
      match splitDot rest with
      | [] => [[c]]
      | e :: es => (c :: e) :: es

/-- A character permitted anywhere inside an interface-name element. -/
def isElemChar (c : Nat) : Bool := isNameStart c || isDigit c

/-- Spec grammar for one interface-name element: non-empty, characters
`[A-Za-z0-9_]`, must not start with a digit. -/
def ifaceElemOk : List Nat → Bool
  | [] => false
  | c :: rest => isNameStart c && rest.all isElemChar

/-- Spec grammar for an interface-name body (before the NUL): two or more
dot-separated elements, each satisfying `ifaceElemOk`.  Leading/trailing
dots and doubled dots yield an empty element and so fail. -/
def ifaceGrammar (body : List Nat) : Bool :=
  decide (2 ≤ (splitDot body).length) && (splitDot body).all ifaceElemOk

/-- All elements of `splitDot l` are valid given that `l` continues an
already-started element: the first fragment only needs valid characters,
later fragments are whole elements. -/
def restElemsOk (l : List Nat) : Bool :=
  match splitDot l with
  | [] => false
  | e :: es => e.all isElemChar && es.all ifaceElemOk

/-- Spec grammar for a member-name body: at least one character, characters
`[A-Za-z0-9_]`, must not start with a digit (hence no dots). -/
def memberBodyOk : List Nat → Bool
  | [] => false
  | c :: rest => isNameStart c && rest.all isWordChar

/-!
Helper lemmas about `Except`.
-/

theorem isAccept_map {α β : Type} (f : α → β) (x : Except VErr α) :
    isAccept (x.map f) = isAccept x := by
  cases x <;> rfl

theorem map_ne_error {α β : Type} (f : α → β) (x : Except VErr α) (e : VErr)
    (hx : x ≠ .error e) : x.map f ≠ .error e := by
  cases x with
  | ok a => simp [Except.map]
  | error a =>
    simp only [Except.map]
    intro h
    injection h with h'
    exact hx (by rw [h'])

theorem isAccept_false_of_ne_ok (x : Except VErr Unit) (hx : x ≠ .ok ()) :
    isAccept x = false := by
  cases x with
  | ok a => cases a; exact absurd rfl hx
  | error a => rfl

/-!
Claim C9 — message-type conversion.
-/

/-- Claim C9: `MessageType::from_raw(raw)` returns MethodCall, MethodReturn,
MethodError or Signal when `raw` equals the engine constant 1, 2, 3 or 4
respectively, and panics (modelled `none`) for every other raw value. -/
theorem c9_messagetype_from_raw :
    (MessageType.from_raw 1 = some .MethodCall ∧
     MessageType.from_raw 2 = some .MethodReturn ∧
     MessageType.from_raw 3 = some .MethodError ∧
     MessageType.from_raw 4 = some .Signal) ∧
    (∀ raw : Nat, ¬(raw = 1 ∨ raw = 2 ∨ raw = 3 ∨ raw = 4) →
      MessageType.from_raw raw = none) := by
  constructor
  · exact ⟨rfl, rfl, rfl, rfl⟩
  · intro raw h
    have h1 : ((raw : Int) == SD_BUS_MESSAGE_METHOD_CALL) = false := by
      rw [Bool.eq_false_iff]
      intro hc
      have := eq_of_beq hc
      simp only [SD_BUS_MESSAGE_METHOD_CALL] at this
      omega
    have h2 : ((raw : Int) == SD_BUS_MESSAGE_METHOD_RETURN) = false := by
      rw [Bool.eq_false_iff]
      intro hc
      have := eq_of_beq hc
      simp only [SD_BUS_MESSAGE_METHOD_RETURN] at this
      omega
    have h3 : ((raw : Int) == SD_BUS_MESSAGE_METHOD_ERROR) = false := by
      rw [Bool.eq_false_iff]
      intro hc
      have := eq_of_beq hc
      simp only [SD_BUS_MESSAGE_METHOD_ERROR] at this
      omega
    have h4 : ((raw : Int) == SD_BUS_MESSAGE_SIGNAL) = false := by
      rw [Bool.eq_false_iff]
      intro hc
      have := eq_of_beq hc
      simp only [SD_BUS_MESSAGE_SIGNAL] at this
      omega
    simp [MessageType.from_raw, h1, h2, h3, h4]

/-- Witness for C9 at the concrete invalid tag 7. -/
theorem c9_witness : MessageType.from_raw 7 = none :=
  c9_messagetype_from_raw.2 7 (by decide)

/-!
Claim C8 — BusName maximum length.
-/

theorem busloop_ne_tooLong (blen : Nat) (u : Bool) :
    ∀ (rest : List Nat) (periods prev : Nat),
      BusName.loop blen u periods prev rest ≠ .error .nameTooLong := by
  intro rest
  induction rest with
  | nil => intro periods prev; simp [BusName.loop]
  | cons c rest ih =>
    intro periods prev
    simp only [BusName.loop]
    split_ifs <;> first
      | exact ih _ _
      | simp

/-- Claim C8: every input longer than 256 bytes (255 characters plus the NUL
boundary) is rejected by `BusName::from_bytes` with the length error, and no
input of at most 256 bytes ever produces that error. -/
theorem c8_busname_length :
    (∀ b : List Nat, 257 ≤ b.length → BusName.from_bytes b = .error .nameTooLong) ∧
    (∀ b : List Nat, b.length ≤ 256 → BusName.from_bytes b ≠ .error .nameTooLong) := by
  constructor
  · intro b h
    cases b with
    | nil => simp at h
    | cons b0 rest =>
      have hl : (b0 :: rest).length > 256 := by omega
      simp only [BusName.from_bytes]
      rw [if_pos hl]
  · intro b h
    cases b with
    | nil =>
      simp only [BusName.from_bytes]
      intro hc; injection hc with h'; exact VErr.noConfusion h'
    | cons b0 rest =>
      have hl : ¬((b0 :: rest).length > 256) := by omega
      simp only [BusName.from_bytes]
      rw [if_neg hl]
      split_ifs <;> first
        | exact map_ne_error _ _ _ (busloop_ne_tooLong _ _ _ _ _)
        | (intro hc; injection hc with h'; exact VErr.noConfusion h')

/-- Witness for C8: a 257-byte input is rejected with the length error, and
the 257-byte bound is really exceeded there; a well-formed short name is not
rejected with it. -/
theorem c8_witness :
    BusName.from_bytes (List.replicate 257 97) = .error .nameTooLong ∧
    BusName.from_bytes [97, 46, 98, 0] ≠ .error .nameTooLong :=
  ⟨c8_busname_length.1 (List.replicate 257 97) (by rw [List.length_replicate]),
   c8_busname_length.2 [97, 46, 98, 0] (by norm_num)⟩

/-!
Claim C3 — synchronous call and the structured error.
-/

/-- Claim C3: `MessageRef::call` returns the structured `Error` exactly when
the engine populated the bus-error out-parameter (non-null name pointer)
during the call, and otherwise returns `Ok` wrapping the reply message. -/
theorem c3_call_error_iff_populated (o : CallOutcome) :
    (o.err.name = none → MessageRef.call o = .ok (Message.from_ptr o.reply)) ∧
    (o.err.name ≠ none → MessageRef.call o = .error (Error.from_raw o.err)) := by
  constructor
  · intro h
    simp [MessageRef.call, RawError.into_result, RawError.is_set, h, Except.map]
  · intro h
    have hs : o.err.name.isSome = true := Option.isSome_iff_ne_none.mpr h
    simp [MessageRef.call, RawError.into_result, RawError.is_set, hs, Except.map]

/-- Witness for C3: an unpopulated error gives `Ok` of the reply; a populated
error (name pointer non-null) gives the structured error. -/
theorem c3_witness :
    MessageRef.call ⟨⟨none, none⟩, 5⟩ = .ok (Message.from_ptr 5) ∧
    MessageRef.call ⟨⟨some [110], none⟩, 5⟩ = .error (Error.from_raw ⟨some [110], none⟩) :=
  ⟨(c3_call_error_iff_populated ⟨⟨none, none⟩, 5⟩).1 rfl,
   (c3_call_error_iff_populated ⟨⟨some [110], none⟩, 5⟩).2 (by simp)⟩

/-!
Claim C4 — the three outcomes of `process`.
-/

/-- Claim C4: one `process()` call makes one `sd_bus_process` engine call and
maps its outcome: negative status to an I/O-style error with the negated
status, zero to "no work pending" (`none`), positive with a null message
pointer to "progress without a message" (`some none`), and positive with a
message pointer to a delivered message. -/
theorem c4_process_outcomes (r : Int) (ptr : Option Nat) :
    (r < 0 → BusRef.process r ptr = .error ⟨-r⟩) ∧
    (r = 0 → BusRef.process r ptr = .ok none) ∧
    (0 < r → BusRef.process r ptr = .ok (some (ptr.map Message.from_ptr))) := by
  refine ⟨fun h => ?_, fun h => ?_, fun h => ?_⟩
  · simp [BusRef.process, ffi_result, h]
  · subst h
    simp [BusRef.process, ffi_result]
  · have h1 : ¬(r < 0) := by omega
    simp only [BusRef.process, ffi_result, if_neg h1]
    rw [if_pos h]
    cases ptr <;> rfl

/-- Witness for C4 at the three concrete engine outcomes. -/
theorem c4_witness :
    BusRef.process (-3) (some 9) = .error ⟨3⟩ ∧
    BusRef.process 0 none = .ok none ∧
    BusRef.process 1 (some 9) = .ok (some (some (Message.from_ptr 9))) :=
  ⟨(c4_process_outcomes (-3) (some 9)).1 (by decide),
   (c4_process_outcomes 0 none).2.1 rfl,
   (c4_process_outcomes 1 (some 9)).2.2 (by decide)⟩

/-!
Claim C7 — bool marshalling.
-/

/-- Claim C7: a bool marshals under wire tag `b` (98) as the 4-byte integer
1 or 0; unmarshalling reads that integer and yields true exactly when it is
nonzero; appending a bool to an open message and reading back at that
position round-trips, and any nonzero stored integer decodes to true. -/
theorem c7_bool_roundtrip :
    (∀ (v : Bool) (m : MsgBuf), m.sealed = false →
        boolToMessage v m =
          .ok { m with body := m.body ++ [(98, if v then 1 else 0)] }) ∧
    (∀ (v : Bool) (m : MsgBuf), m.sealed = false → m.rpos = m.body.length →
        boolFromMessage
            (MsgBuf.seal { m with body := m.body ++ [(98, if v then 1 else 0)] }) =
          .ok (some v,
            MsgBuf.seal { m with body := m.body ++ [(98, if v then 1 else 0)],
                                 rpos := m.rpos + 1 })) ∧
    (∀ k : Int, k ≠ 0 →
        boolFromMessage ⟨true, [(98, k)], 0⟩ = .ok (some true, ⟨true, [(98, k)], 1⟩)) := by
  refine ⟨fun v m h => ?_, fun v m h hr => ?_, fun k hk => ?_⟩
  · simp [boolToMessage, append_basic_raw, h]
  · have hget :
        (m.body ++ [((98 : Nat), if v then (1 : Int) else 0)])[m.rpos]? =
          some (98, if v then (1 : Int) else 0) := by
      rw [hr]
      exact List.getElem?_concat_length _ _
    simp only [boolFromMessage, read_basic_raw, MsgBuf.seal, hget]
    cases v <;> simp
  · have hb : (k != 0) = true := bne_iff_ne.mpr hk
    simp [boolFromMessage, read_basic_raw, hb]

/-- Witness for C7: round trip of `true` through a fresh open message, and a
nonzero stored integer (5) decoding to true. -/
theorem c7_witness :
    boolToMessage true ⟨false, [], 0⟩ = .ok ⟨false, [(98, 1)], 0⟩ ∧
    boolFromMessage (MsgBuf.seal ⟨false, [(98, 1)], 0⟩) =
      .ok (some true, MsgBuf.seal ⟨false, [(98, 1)], 1⟩) ∧
    boolFromMessage ⟨true, [(98, 5)], 0⟩ = .ok (some true, ⟨true, [(98, 5)], 1⟩) :=
  ⟨c7_bool_roundtrip.1 true ⟨false, [], 0⟩ rfl,
   c7_bool_roundtrip.2.1 true ⟨false, [], 0⟩ rfl rfl,
   c7_bool_roundtrip.2.2 5 (by decide)⟩

/-!
Claim C10 — the legacy src/bus.rs validators agree with the current
src/bus/mod.rs validators.
-/

theorem legacy_objectpath_loop_eq (blen : Nat) :
    ∀ (rest : List Nat) (prev : Nat),
      Legacy.ObjectPath.loop blen prev rest = ObjectPath.loop blen prev rest := by
  intro rest
  induction rest with
  | nil => intro prev; rfl
  | cons c rest ih =>
    intro prev
    simp only [Legacy.ObjectPath.loop, ObjectPath.loop, ih]

theorem legacy_interfacename_loop_eq (blen : Nat) :
    ∀ (rest : List Nat) (periods prev : Nat),
      Legacy.InterfaceName.loop blen periods prev rest =
        InterfaceName.loop blen periods prev rest := by
  intro rest
  induction rest with
  | nil => intro periods prev; rfl
  | cons c rest ih =>
    intro periods prev
    simp only [Legacy.InterfaceName.loop, InterfaceName.loop, ih]

theorem legacy_busname_loop_eq (blen : Nat) (u : Bool) :
    ∀ (rest : List Nat) (periods prev : Nat),
      Legacy.BusName.loop blen u periods prev rest =
        BusName.loop blen u periods prev rest := by
  intro rest
  induction rest with
  | nil => intro periods prev; rfl
  | cons c rest ih =>
    intro periods prev
    simp only [Legacy.BusName.loop, BusName.loop, ih]

theorem legacy_membername_loop_eq :
    ∀ b : List Nat, Legacy.MemberName.loop b = MemberName.loop b := by
  intro b
  induction b with
  | nil => rfl
  | cons c rest ih =>
    simp only [Legacy.MemberName.loop, MemberName.loop, ih]

/-- Claim C10: the legacy validators in src/bus.rs accept exactly the same
byte strings as the current validators in src/bus/mod.rs and return the same
error message (same `VErr` value) on every rejected input: the results are
equal outright. -/
theorem c10_legacy_equiv (b : List Nat) :
    Legacy.ObjectPath.from_bytes b = ObjectPath.from_bytes b ∧
    Legacy.InterfaceName.from_bytes b = InterfaceName.from_bytes b ∧
    Legacy.BusName.from_bytes b = BusName.from_bytes b ∧
    Legacy.MemberName.from_bytes b = MemberName.from_bytes b := by
  refine ⟨?_, ?_, ?_, ?_⟩
  · cases b with
    | nil => rfl
    | cons b0 rest =>
      simp only [Legacy.ObjectPath.from_bytes, ObjectPath.from_bytes,
        legacy_objectpath_loop_eq]
  · cases b with
    | nil => rfl
    | cons b0 rest =>
      simp only [Legacy.InterfaceName.from_bytes, InterfaceName.from_bytes,
        legacy_interfacename_loop_eq]
  · cases b with
    | nil => rfl
    | cons b0 rest =>
      simp only [Legacy.BusName.from_bytes, BusName.from_bytes,
        legacy_busname_loop_eq]
  · simp only [Legacy.MemberName.from_bytes, MemberName.from_bytes,
      legacy_membername_loop_eq]

/-!
Claim C2 — digit-leading elements in bus names.
-/

theorem busloop_unique_ne_elemDigit (blen : Nat) :
    ∀ (rest : List Nat) (periods prev : Nat),
      BusName.loop blen true periods prev rest ≠ .error .nameElemDigit := by
  intro rest
  induction rest with
  | nil => intro periods prev; simp [BusName.loop]
  | cons c rest ih =>
    intro periods prev
    simp only [BusName.loop, Bool.not_true, Bool.and_false, Bool.false_eq_true,
      if_false]
    split_ifs <;> first
      | exact ih _ _
      | simp

theorem busloop_nonunique_digit_not_ok (blen : Nat) (d : Nat)
    (hd : isDigit d = true) (suf : List Nat) :
    ∀ (pre : List Nat) (periods prev : Nat), 0 ∉ pre →
      BusName.loop blen false periods prev (pre ++ 46 :: d :: suf) ≠ .ok () := by
  have hd48 : 48 ≤ d ∧ d ≤ 57 := by
    simpa [isDigit, Bool.and_eq_true, decide_eq_true_eq] using hd
  have hd46 : (d == 46) = false := by
    simp only [beq_eq_false_iff_ne, ne_eq]
    omega
  have hdbus : isBusChar d = false := by
    simp only [isBusChar, Bool.or_eq_false_iff, Bool.and_eq_false_iff,
      beq_eq_false_iff_ne, ne_eq, decide_eq_false_iff_not, not_le]
    omega
  intro pre
  induction pre with
  | nil =>
    intro periods prev _
    simp only [List.nil_append, BusName.loop]
    split_ifs <;> simp_all
  | cons p pre ih =>
    intro periods prev hp
    have hp0 : (p == 0) = false := by
      simp only [beq_eq_false_iff_ne, ne_eq]
      intro h
      exact hp (by simp [h])
    have hp' : 0 ∉ pre := fun h => hp (List.mem_cons_of_mem _ h)
    simp only [List.cons_append, BusName.loop]
    split_ifs <;> first
      | exact ih _ _ hp'
      | simp_all

/-- Claim C2 (amended): for a unique bus name (leading `:`), the
digit-leading restriction is waived for every element, not just the first —
`BusName::from_bytes` never reports the digit-leading error on such input;
in non-unique names, every digit-leading element (whether the first element
or one after a dot occurring before the NUL) causes rejection. -/
theorem c2_unique_digit_waiver :
    (∀ rest : List Nat,
        BusName.from_bytes (58 :: rest) ≠ .error .nameElemDigit) ∧
    (∀ (b0 d : Nat) (pre suf : List Nat), b0 ≠ 58 → isDigit d = true → 0 ∉ pre →
        isAccept (BusName.from_bytes (b0 :: (pre ++ 46 :: d :: suf))) = false) ∧
    (∀ (b0 : Nat) (rest : List Nat), isDigit b0 = true →
        isAccept (BusName.from_bytes (b0 :: rest)) = false) := by
  refine ⟨fun rest => ?_, fun b0 d pre suf hb0 hd hpre => ?_, fun b0 rest hb0 => ?_⟩
  · simp only [BusName.from_bytes]
    split_ifs with h1 h2 h3 h4
    · simp
    · simp at h2
    · simp [isBusChar] at h3
    · exact map_ne_error _ _ _ (busloop_unique_ne_elemDigit _ _ _ _)
    · simp at h4
  · simp only [BusName.from_bytes]
    split_ifs with h1 h2 h3 h4
    · rfl
    · rfl
    · rw [isAccept_map]
      exact isAccept_false_of_ne_ok _
        (busloop_nonunique_digit_not_ok _ d hd suf pre _ _ hpre)
    · exact absurd (by simpa using h4) hb0
    · rfl
  · have h48 : 48 ≤ b0 ∧ b0 ≤ 57 := by
      simpa [isDigit, Bool.and_eq_true, decide_eq_true_eq] using hb0
    have h46 : (b0 == 46) = false := by
      simp only [beq_eq_false_iff_ne, ne_eq]; omega
    have h58 : (b0 == 58) = false := by
      simp only [beq_eq_false_iff_ne, ne_eq]; omega
    have hbus : isBusChar b0 = false := by
      simp only [isBusChar, Bool.or_eq_false_iff, Bool.and_eq_false_iff,
        beq_eq_false_iff_ne, ne_eq, decide_eq_false_iff_not, not_le]
      omega
    simp only [BusName.from_bytes, h46, h58, hbus, Bool.false_eq_true, if_false]
    split_ifs <;> rfl

/-- Counterexample to C2 as stated: the unique name `":a.1\0"` has the
digit-leading element `1` in non-first position, yet `BusName::from_bytes`
accepts it (the repository's own test `":a.b-c.1\0"` relies on this). -/
theorem c2_counterexample :
    BusName.from_bytes [58, 97, 46, 49, 0] = .ok [58, 97, 46, 49, 0] := rfl

/-- Witness for C2 at concrete inputs: `":a.1\0"` never yields the
digit-leading error; non-unique `"a.1\0"` is rejected; digit-leading first
element `"1a\0"` is rejected. -/
theorem c2_witness :
    BusName.from_bytes (58 :: [97, 46, 49, 0]) ≠ .error .nameElemDigit ∧
    isAccept (BusName.from_bytes (97 :: ([] ++ 46 :: 49 :: [0]))) = false ∧
    isAccept (BusName.from_bytes (49 :: [97, 0])) = false :=
  ⟨c2_unique_digit_waiver.1 [97, 46, 49, 0],
   c2_unique_digit_waiver.2.1 97 49 [] [0] (by decide) (by decide) (by simp),
   c2_unique_digit_waiver.2.2 49 [97, 0] (by decide)⟩

/-!
Claim C1 — shape of accepted object paths.
-/

theorem isAccept_true_iff (x : Except VErr Unit) :
    isAccept x = true ↔ x = .ok () := by
  cases x with
  | ok a => cases a; simp [isAccept]
  | error a => simp [isAccept]

theorem isWordChar_facts (c : Nat) (h : isWordChar c = true) :
    (c == 47) = false ∧ (c == 0) = false := by
  simp only [isWordChar, Bool.or_eq_true, Bool.and_eq_true, decide_eq_true_eq,
    beq_iff_eq] at h
  constructor <;> · simp only [beq_eq_false_iff_ne, ne_eq]; omega

theorem takeToNul_ne_nil_of_mem (l : List Nat) (h : 0 ∈ l) :
    takeToNul l ≠ [] := by
  cases l with
  | nil => simp at h
  | cons c rest =>
    simp only [takeToNul]
    split_ifs <;> simp

theorem oploop_ok_shape :
    ∀ (rest : List Nat) (blen prev : Nat),
      ObjectPath.loop blen prev rest = .ok () →
      0 ∈ rest ∧
      hasDoubleSlash (prev :: takeToNul rest) = false ∧
      (endsSlashNul (prev :: takeToNul rest) = true → blen = 2) := by
  intro rest
  induction rest with
  | nil => intro blen prev h; simp [ObjectPath.loop] at h
  | cons c rest ih =>
    intro blen prev h
    rw [show ObjectPath.loop blen prev (c :: rest) =
          (if c == 47 then
            if prev == 47 then .error .pathDoubleSlash
            else ObjectPath.loop blen c rest
          else if isWordChar c then ObjectPath.loop blen c rest
          else if c == 0 then
            if prev == 47 && blen != 2 then .error .pathTrailingSlash
            else .ok ()
          else .error .pathInvalidChar) from rfl] at h
    by_cases h47 : (c == 47) = true
    · rw [if_pos h47] at h
      by_cases hp : (prev == 47) = true
      · rw [if_pos hp] at h; exact absurd h (by simp)
      · rw [if_neg hp] at h
        have hc : c = 47 := by simpa using h47
        subst hc
        obtain ⟨hmem, hds, hend⟩ := ih blen 47 h
        have ht : takeToNul (47 :: rest) = 47 :: takeToNul rest := by
          simp [takeToNul]
        refine ⟨List.mem_cons_of_mem _ hmem, ?_, ?_⟩
        · rw [ht]
          have : hasDoubleSlash (prev :: 47 :: takeToNul rest) =
              ((prev == 47 && 47 == 47) || hasDoubleSlash (47 :: takeToNul rest)) := rfl
          rw [this, hds]
          simp [hp]
        · rw [ht]
          intro hE
          apply hend
          obtain ⟨t0, t', ht'⟩ :=
            List.exists_cons_of_ne_nil (takeToNul_ne_nil_of_mem rest hmem)
          rw [ht'] at hE ⊢
          exact hE
    · rw [if_neg h47] at h
      by_cases hw : isWordChar c = true
      · rw [if_pos hw] at h
        obtain ⟨hc47, hc0⟩ := isWordChar_facts c hw
        obtain ⟨hmem, hds, hend⟩ := ih blen c h
        have ht : takeToNul (c :: rest) = c :: takeToNul rest := by
          simp [takeToNul, hc0]
        refine ⟨List.mem_cons_of_mem _ hmem, ?_, ?_⟩
        · rw [ht]
          have : hasDoubleSlash (prev :: c :: takeToNul rest) =
              ((prev == 47 && c == 47) || hasDoubleSlash (c :: takeToNul rest)) := rfl
          rw [this, hds, hc47]
          simp
        · rw [ht]
          intro hE
          apply hend
          obtain ⟨t0, t', ht'⟩ :=
            List.exists_cons_of_ne_nil (takeToNul_ne_nil_of_mem rest hmem)
          rw [ht'] at hE ⊢
          exact hE
      · rw [if_neg hw] at h
        by_cases hc0 : (c == 0) = true
        · rw [if_pos hc0] at h
          have hc : c = 0 := by simpa using hc0
          subst hc
          have ht : takeToNul ((0 : Nat) :: rest) = [0] := by simp [takeToNul]
          by_cases hg : (prev == 47 && blen != 2) = true
          · rw [if_pos hg] at h; exact absurd h (by simp)
          · refine ⟨List.mem_cons_self _ _, ?_, ?_⟩
            · rw [ht]
              have : hasDoubleSlash [prev, 0] =
                  ((prev == 47 && 0 == 47) || hasDoubleSlash [0]) := rfl
              rw [this]
              simp [hasDoubleSlash]
            · rw [ht]
              intro hE
              have hE' : (prev == 47 && 0 == 0) = true := hE
              have hp47 : (prev == 47) = true := by
                simpa using hE'
              simp only [Bool.and_eq_true, bne_iff_ne, ne_eq, not_and, hp47,
                true_and, Bool.not_eq_true] at hg
              simpa using hg
        · rw [if_neg hc0] at h
          exact absurd h (by simp)

/-- Counterexample to C1 as stated: the byte string `"/a\0//"` is accepted
by `ObjectPath::from_bytes` (validation stops at the first NUL), yet it
contains two consecutive `/` bytes. -/
theorem c1_counterexample :
    isAccept (ObjectPath.from_bytes [47, 97, 0, 47, 47]) = true ∧
    hasDoubleSlash [47, 97, 0, 47, 47] = true := by decide

/-- Claim C1 (amended): every byte string accepted by
`ObjectPath::from_bytes` starts with `/`, and its prefix up to and including
the first NUL contains no `//` and either equals `"/\0"` or does not end in
`"/\0"` (bytes after the first NUL are not validated). -/
theorem c1_path_accept_shape (b : List Nat)
    (h : isAccept (ObjectPath.from_bytes b) = true) :
    b.head? = some 47 ∧
    hasDoubleSlash (takeToNul b) = false ∧
    (takeToNul b = [47, 0] ∨ endsSlashNul (takeToNul b) = false) := by
  cases b with
  | nil => simp [ObjectPath.from_bytes, isAccept] at h
  | cons b0 rest =>
    rw [show ObjectPath.from_bytes (b0 :: rest) =
          (if b0 != 47 then .error .pathBeginSlash
           else (ObjectPath.loop (b0 :: rest).length b0 rest).map
             fun _ => b0 :: rest) from rfl] at h
    by_cases hb0 : (b0 != 47) = true
    · rw [if_pos hb0] at h; exact absurd h (by simp [isAccept])
    · rw [if_neg hb0] at h
      have hb : b0 = 47 := by simpa using hb0
      subst hb
      rw [isAccept_map, isAccept_true_iff] at h
      obtain ⟨hmem, hds, hend⟩ := oploop_ok_shape rest (47 :: rest).length 47 h
      have ht : takeToNul ((47 : Nat) :: rest) = 47 :: takeToNul rest := by
        simp [takeToNul]
      refine ⟨rfl, by rw [ht]; exact hds, ?_⟩
      by_cases hE : endsSlashNul ((47 : Nat) :: takeToNul rest) = true
      · left
        have hlen : (47 :: rest).length = 2 := hend hE
        have : rest.length = 1 := by simpa using hlen
        have hne : rest ≠ [] := by
          intro hnil
          rw [hnil] at this
          simp at this
        obtain ⟨r0, rtl, hr⟩ := List.exists_cons_of_ne_nil hne
        subst hr
        have : rtl = [] := by
          simpa using this
        subst this
        have hr0 : r0 = 0 := by
          have := hmem
          simp at this
          omega
        subst hr0
        simp [ht, takeToNul]
      · right
        rw [ht]
        simpa using hE

/-- Witness for C1 at the accepted concrete path `"/h\0"`. -/
theorem c1_witness :
    ([47, 104, 0] : List Nat).head? = some 47 ∧
    hasDoubleSlash (takeToNul [47, 104, 0]) = false ∧
    (takeToNul [47, 104, 0] = [47, 0] ∨
      endsSlashNul (takeToNul [47, 104, 0]) = false) :=
  c1_path_accept_shape [47, 104, 0] (by decide)

/-!
Claim C6 — MemberName acceptance.
-/

theorem isWordChar_of_isNameStart (c : Nat) (h : isNameStart c = true) :
    isWordChar c = true := by
  simp only [isNameStart, Bool.or_eq_true, Bool.and_eq_true, decide_eq_true_eq,
    beq_iff_eq] at h
  simp only [isWordChar, Bool.or_eq_true, Bool.and_eq_true, decide_eq_true_eq,
    beq_iff_eq]
  omega

theorem isWordChar_ne_zero (c : Nat) (h : isWordChar c = true) :
    (c == 0) = false := by
  simp only [isWordChar, Bool.or_eq_true, Bool.and_eq_true, decide_eq_true_eq,
    beq_iff_eq] at h
  simp only [beq_eq_false_iff_ne, ne_eq]
  omega

theorem isNameStart_ne_zero (c : Nat) (h : isNameStart c = true) :
    (c == 0) = false :=
  isWordChar_ne_zero c (isWordChar_of_isNameStart c h)

theorem memberloop_ok_iff :
    ∀ l : List Nat,
      MemberName.loop l = .ok () ↔
        (0 ∈ l ∧ (nulBody l).all isWordChar = true) := by
  intro l
  induction l with
  | nil => simp [MemberName.loop]
  | cons c rest ih =>
    by_cases hw : isWordChar c = true
    · have hc0 := isWordChar_ne_zero c hw
      have hc0' : c ≠ 0 := by simpa using hc0
      rw [show MemberName.loop (c :: rest) = MemberName.loop rest by
        simp [MemberName.loop, hw]]
      rw [ih]
      simp [nulBody, hc0', hw, Ne.symm hc0']
    · by_cases hc : (c == 0) = true
      · have hc' : c = 0 := by simpa using hc
        subst hc'
        rw [show MemberName.loop ((0 : Nat) :: rest) = .ok () by
          simp [MemberName.loop, hw]]
        simp [nulBody]
      · rw [show MemberName.loop (c :: rest) = .error .memberInvalidChar by
          simp [MemberName.loop, hw, hc]]
        have hc' : c ≠ 0 := by simpa using hc
        simp [nulBody, hc', hw]

/-- Counterexample to C6 as stated: `"ab\0."` is accepted by
`MemberName::from_bytes` even though the byte string contains a dot — bytes
after the first NUL are not validated. -/
theorem c6_counterexample :
    isAccept (MemberName.from_bytes [97, 98, 0, 46]) = true ∧
    (46 : Nat) ∈ [97, 98, 0, 46] := by
  exact ⟨by decide, by decide⟩

/-- Claim C6 (amended): `MemberName::from_bytes` accepts `b` iff `b` has
between 2 and 256 bytes, contains a NUL, and the bytes before the first NUL
form a non-empty string over `[A-Za-z0-9_]` not starting with a digit (in
particular containing no dots). -/
theorem c6_member_accept_iff (b : List Nat) :
    isAccept (MemberName.from_bytes b) = true ↔
      (2 ≤ b.length ∧ b.length ≤ 256 ∧ 0 ∈ b ∧ memberBodyOk (nulBody b) = true) := by
  by_cases h2 : b.length < 2
  · rw [show MemberName.from_bytes b = .error .nameEmpty by
      simp [MemberName.from_bytes, h2]]
    simp [isAccept]
    omega
  · by_cases h256 : b.length > 256
    · rw [show MemberName.from_bytes b = .error .nameTooLong by
        simp [MemberName.from_bytes, h2, h256]]
      simp [isAccept]
      omega
    · cases b with
      | nil => simp at h2
      | cons b0 rest =>
        rw [show MemberName.from_bytes (b0 :: rest) =
            (if isNameStart b0 then
               (MemberName.loop (b0 :: rest)).map fun _ => b0 :: rest
             else .error .memberBeginChar) by
          simp only [MemberName.from_bytes]
          rw [if_neg h2, if_neg h256]]
        by_cases hns : isNameStart b0 = true
        · rw [if_pos hns, isAccept_map, isAccept_true_iff, memberloop_ok_iff]
          have hb0 : b0 ≠ 0 := by simpa using isNameStart_ne_zero b0 hns
          have hnb : nulBody (b0 :: rest) = b0 :: nulBody rest := by
            simp [nulBody, hb0]
          rw [hnb]
          simp only [List.all_cons, isWordChar_of_isNameStart b0 hns,
            Bool.true_and, memberBodyOk, hns]
          constructor
          · rintro ⟨hm, ha⟩
            exact ⟨by omega, by omega, hm, ha⟩
          · rintro ⟨_, _, hm, ha⟩
            exact ⟨hm, ha⟩
        · rw [if_neg hns]
          simp only [isAccept, Bool.false_eq_true, false_iff, not_and]
          intro _ _ _
          by_cases hb0 : b0 = 0
          · subst hb0
            rw [show nulBody ((0 : Nat) :: rest) = [] by simp [nulBody]]
            simp [memberBodyOk]
          · rw [show nulBody (b0 :: rest) = b0 :: nulBody rest by
              simp [nulBody, hb0]]
            simp [memberBodyOk, hns]

/-!
Claim C5 — InterfaceName acceptance against the dot-separated grammar.
-/

theorem splitDot_ne_nil : ∀ l : List Nat, splitDot l ≠ [] := by
  intro l
  cases l with
  | nil => simp [splitDot]
  | cons c rest =>
    simp only [splitDot]
    split_ifs
    · simp
    · cases h : splitDot rest <;> simp

theorem splitDot_cons_dot (l : List Nat) :
    splitDot (46 :: l) = [] :: splitDot l := by
  simp [splitDot]

theorem splitDot_cons_ne (c : Nat) (l : List Nat) (hc : (c == 46) = false) :
    ∃ e es, splitDot l = e :: es ∧ splitDot (c :: l) = (c :: e) :: es := by
  obtain ⟨e, es, h⟩ := List.exists_cons_of_ne_nil (splitDot_ne_nil l)
  refine ⟨e, es, h, ?_⟩
  simp only [splitDot, hc, Bool.false_eq_true, if_false, h]

theorem splitDot_length (l : List Nat) :
    (splitDot l).length = countDots l + 1 := by
  induction l with
  | nil => simp [splitDot, countDots]
  | cons c rest ih =>
    by_cases hc : (c == 46) = true
    · have hc' : c = 46 := by simpa using hc
      subst hc'
      simp [splitDot_cons_dot, countDots, ih]
      omega
    · obtain ⟨e, es, he, hce⟩ := splitDot_cons_ne c rest (by simpa using hc)
      rw [hce]
      simp only [List.length_cons, countDots, hc, Bool.false_eq_true, if_false,
        Nat.zero_add]
      have := ih
      rw [he] at this
      simpa using this

theorem isElemChar_facts (c : Nat) (h : isElemChar c = true) :
    (c == 46) = false ∧ (c == 0) = false := by
  simp only [isElemChar, isNameStart, isDigit, Bool.or_eq_true, Bool.and_eq_true,
    decide_eq_true_eq, beq_iff_eq] at h
  constructor <;> · simp only [beq_eq_false_iff_ne, ne_eq]; omega

theorem isElemChar_of_isNameStart (c : Nat) (h : isNameStart c = true) :
    isElemChar c = true := by
  simp [isElemChar, h]

theorem isElemChar_of_isDigit (c : Nat) (h : isDigit c = true) :
    isElemChar c = true := by
  simp [isElemChar, h]

theorem isNameStart_of_not_elem (c : Nat) (h : isElemChar c = false) :
    isNameStart c = false := by
  simp only [isElemChar, Bool.or_eq_false_iff] at h
  exact h.1

theorem isNameStart_of_isDigit (c : Nat) (h : isDigit c = true) :
    isNameStart c = false := by
  simp only [isDigit, Bool.and_eq_true, decide_eq_true_eq] at h
  simp only [isNameStart, Bool.or_eq_false_iff, Bool.and_eq_false_iff,
    beq_eq_false_iff_ne, ne_eq, decide_eq_false_iff_not, not_le]
  omega

theorem restElemsOk_nil : restElemsOk [] = true := rfl

theorem restElemsOk_cons_dot (l : List Nat) :
    restElemsOk (46 :: l) = (splitDot l).all ifaceElemOk := by
  simp [restElemsOk, splitDot_cons_dot]

theorem restElemsOk_cons_elem (c : Nat) (l : List Nat)
    (hc : isElemChar c = true) : restElemsOk (c :: l) = restElemsOk l := by
  obtain ⟨e, es, he, hce⟩ := splitDot_cons_ne c l (isElemChar_facts c hc).1
  simp [restElemsOk, he, hce, ifaceElemOk, hc]

theorem restElemsOk_cons_bad (c : Nat) (l : List Nat)
    (hc : isElemChar c = false) (hc46 : (c == 46) = false) :
    restElemsOk (c :: l) = false := by
  obtain ⟨e, es, he, hce⟩ := splitDot_cons_ne c l hc46
  simp [restElemsOk, hce, List.all_cons, hc]

theorem splitDot_all_cons_dot (l : List Nat) :
    (splitDot (46 :: l)).all ifaceElemOk = false := by
  simp [splitDot_cons_dot, ifaceElemOk]

theorem splitDot_all_cons_start (c : Nat) (l : List Nat)
    (hc : isNameStart c = true) :
    (splitDot (c :: l)).all ifaceElemOk = restElemsOk l := by
  obtain ⟨e, es, he, hce⟩ :=
    splitDot_cons_ne c l (isElemChar_facts c (isElemChar_of_isNameStart c hc)).1
  simp [hce, restElemsOk, he, ifaceElemOk, hc]

theorem splitDot_all_cons_nostart (c : Nat) (l : List Nat)
    (hc : isNameStart c = false) (hc46 : (c == 46) = false) :
    (splitDot (c :: l)).all ifaceElemOk = false := by
  obtain ⟨e, es, he, hce⟩ := splitDot_cons_ne c l hc46
  simp [hce, ifaceElemOk, hc]

theorem countDots_cons_dot (l : List Nat) :
    countDots (46 :: l) = 1 + countDots l := by
  simp [countDots]

theorem countDots_cons_ne (c : Nat) (l : List Nat) (hc : (c == 46) = false) :
    countDots (c :: l) = countDots l := by
  simp [countDots, hc]

theorem nulBody_cons_ne (c : Nat) (l : List Nat) (hc : (c == 0) = false) :
    nulBody (c :: l) = c :: nulBody l := by
  have : c ≠ 0 := by simpa using hc
  simp [nulBody, this]

theorem nulBody_cons_nul (l : List Nat) : nulBody (0 :: l) = [] := by
  simp [nulBody]

theorem ifaceloop_cons (blen periods prev c : Nat) (rest : List Nat) :
    InterfaceName.loop blen periods prev (c :: rest) =
      (if c == 46 then
        if prev == 46 then .error .nameDoubleDot
        else InterfaceName.loop blen (periods + 1) c rest
      else if isNameStart c then InterfaceName.loop blen periods c rest
      else if isDigit c then
        if prev == 46 then .error .nameElemDigit
        else InterfaceName.loop blen periods c rest
      else if c == 0 then
        if prev == 46 && blen != 1 then .error .nameEndDot
        else if periods < 1 then .error .nameTwoElems
        else .ok ()
      else .error .ifaceInvalidChar) := rfl

/-- Joint characterization of the InterfaceName scanning loop: starting just
after a valid element character the loop accepts iff a NUL follows and the
remaining fragments are valid; starting just after a dot it accepts iff
additionally the next fragment is a whole valid element. -/
theorem ifaceloop_charact (blen : Nat) (hblen : blen ≠ 1) :
    ∀ rest : List Nat,
      (∀ (periods prev : Nat), isElemChar prev = true →
        (InterfaceName.loop blen periods prev rest = .ok () ↔
          (0 ∈ rest ∧ restElemsOk (nulBody rest) = true ∧
           1 ≤ periods + countDots (nulBody rest)))) ∧
      (∀ periods : Nat,
        (InterfaceName.loop blen periods 46 rest = .ok () ↔
          (0 ∈ rest ∧ (splitDot (nulBody rest)).all ifaceElemOk = true ∧
           1 ≤ periods + countDots (nulBody rest)))) := by
  intro rest
  induction rest with
  | nil =>
    constructor
    · intro periods prev _
      simp [InterfaceName.loop]
    · intro periods
      simp [InterfaceName.loop]
  | cons c rest ih =>
    by_cases h46 : (c == 46) = true
    · have hc : c = 46 := by simpa using h46
      subst hc
      have hnb : nulBody ((46 : Nat) :: rest) = 46 :: nulBody rest :=
        nulBody_cons_ne 46 rest (by decide)
      constructor
      · intro periods prev hprev
        rw [ifaceloop_cons, if_pos (by decide),
          if_neg (by rw [(isElemChar_facts prev hprev).1]; simp)]
        rw [(ih).2 (periods + 1), hnb, restElemsOk_cons_dot,
          countDots_cons_dot]
        constructor
        · rintro ⟨hm, hall, hper⟩
          exact ⟨by simp [hm], hall, by omega⟩
        · rintro ⟨hm, hall, hper⟩
          have hm' : 0 ∈ rest := by
            rcases List.mem_cons.mp hm with h | h
            · omega
            · exact h
          exact ⟨hm', hall, by omega⟩
      · intro periods
        rw [ifaceloop_cons, if_pos (by decide), if_pos (by decide)]
        rw [hnb, splitDot_all_cons_dot]
        simp
    · by_cases hns : isNameStart c = true
      · have helem := isElemChar_of_isNameStart c hns
        obtain ⟨hc46, hc0⟩ := isElemChar_facts c helem
        have hnb : nulBody (c :: rest) = c :: nulBody rest :=
          nulBody_cons_ne c rest hc0
        have hc0' : c ≠ 0 := by simpa using hc0
        constructor
        · intro periods prev _
          rw [ifaceloop_cons, if_neg h46, if_pos hns]
          rw [(ih).1 periods c helem, hnb,
            restElemsOk_cons_elem c _ helem, countDots_cons_ne c _ hc46]
          simp [Ne.symm hc0']
        · intro periods
          rw [ifaceloop_cons, if_neg h46, if_pos hns]
          rw [(ih).1 periods c helem, hnb,
            splitDot_all_cons_start c _ hns, countDots_cons_ne c _ hc46]
          simp [Ne.symm hc0']
      · by_cases hdg : isDigit c = true
        · have helem := isElemChar_of_isDigit c hdg
          obtain ⟨hc46, hc0⟩ := isElemChar_facts c helem
          have hnb : nulBody (c :: rest) = c :: nulBody rest :=
            nulBody_cons_ne c rest hc0
          have hc0' : c ≠ 0 := by simpa using hc0
          constructor
          · intro periods prev hprev
            rw [ifaceloop_cons, if_neg h46, if_neg hns,
              if_pos hdg, if_neg (by rw [(isElemChar_facts prev hprev).1]; simp)]
            rw [(ih).1 periods c helem, hnb,
              restElemsOk_cons_elem c _ helem, countDots_cons_ne c _ hc46]
            simp [Ne.symm hc0']
          · intro periods
            rw [ifaceloop_cons, if_neg h46, if_neg hns,
              if_pos hdg, if_pos (by decide)]
            rw [hnb, splitDot_all_cons_nostart c _
              (isNameStart_of_isDigit c hdg) hc46]
            simp
        · by_cases hc0 : (c == 0) = true
          · have hc : c = 0 := by simpa using hc0
            subst hc
            have hnb : nulBody ((0 : Nat) :: rest) = [] := nulBody_cons_nul rest
            constructor
            · intro periods prev hprev
              rw [ifaceloop_cons, if_neg (by decide), if_neg (by decide),
                if_neg (by decide), if_pos (by decide),
                if_neg (by rw [(isElemChar_facts prev hprev).1]; simp)]
              rw [hnb]
              simp only [restElemsOk_nil, countDots, List.mem_cons, true_or,
                true_and, Nat.add_zero]
              constructor
              · intro h
                by_cases hp : periods < 1
                · rw [if_pos hp] at h
                  exact absurd h (by simp)
                · omega
              · intro h
                rw [if_neg (by omega)]
            · intro periods
              rw [ifaceloop_cons, if_neg (by decide), if_neg (by decide),
                if_neg (by decide), if_pos (by decide)]
              have hguard : ((46 : Nat) == 46 && blen != 1) = true := by
                simp only [Bool.and_eq_true, beq_self_eq_true, true_and,
                  bne_iff_ne, ne_eq]
                exact hblen
              rw [if_pos hguard, hnb]
              simp [splitDot, ifaceElemOk]
          · have helemF : isElemChar c = false := by
              simp only [isElemChar, Bool.or_eq_false_iff]
              exact ⟨by simpa using hns, by simpa using hdg⟩
            have hnb : nulBody (c :: rest) = c :: nulBody rest :=
              nulBody_cons_ne c rest (by simpa using hc0)
            have hc0' : c ≠ 0 := by simpa using hc0
            have herr : ∀ periods prev,
                InterfaceName.loop blen periods prev (c :: rest) =
                  .error .ifaceInvalidChar := by
              intro periods prev
              rw [ifaceloop_cons, if_neg h46, if_neg hns, if_neg hdg,
                if_neg hc0]
            constructor
            · intro periods prev _
              rw [herr periods prev, hnb,
                restElemsOk_cons_bad c _ helemF (by simpa using h46)]
              simp
            · intro periods
              rw [herr periods 46, hnb,
                splitDot_all_cons_nostart c _
                  (isNameStart_of_not_elem c helemF) (by simpa using h46)]
              simp

/-- Counterexample to C5 as stated: `"a.b\0?"` is accepted by
`InterfaceName::from_bytes` even though the byte string contains `?` (63),
which is outside the grammar alphabet — bytes after the first NUL are not
validated, so acceptance does not imply the whole byte string matches the
grammar. -/
theorem c5_counterexample :
    isAccept (InterfaceName.from_bytes [97, 46, 98, 0, 63]) = true ∧
    (isWordChar 63 || (63 == 46) || (63 == 0)) = false ∧
    (63 : Nat) ∈ [97, 46, 98, 0, 63] := by
  exact ⟨by decide, by decide, by decide⟩

/-- Claim C5 (amended): `InterfaceName::from_bytes` accepts `b` iff `b`
contains a NUL and the bytes before the first NUL form two or more
dot-separated non-empty elements over `[A-Za-z0-9_]`, none starting with a
digit (hence not starting or ending with a dot). -/
theorem c5_interface_accept_iff (b : List Nat) :
    isAccept (InterfaceName.from_bytes b) = true ↔
      (0 ∈ b ∧ ifaceGrammar (nulBody b) = true) := by
  cases b with
  | nil => simp [InterfaceName.from_bytes, isAccept]
  | cons b0 rest =>
    cases rest with
    | nil =>
      have hL : isAccept (InterfaceName.from_bytes [b0]) = false := by
        rw [show InterfaceName.from_bytes [b0] =
              (if b0 == 46 then .error .nameBeginDot
               else if isNameStart b0 then
                 (InterfaceName.loop 1 0 b0 []).map fun _ => [b0]
               else .error .nameBeginChar) from rfl]
        split_ifs <;> rfl
      rw [hL]
      by_cases hb0 : b0 = 0
      · subst hb0
        simp [nulBody, ifaceGrammar, splitDot]
      · constructor
        · intro h; exact absurd h (by simp)
        · rintro ⟨hm, _⟩
          simp only [List.mem_singleton] at hm
          exact absurd hm.symm hb0
    | cons r1 rest' =>
      have hblen : (b0 :: r1 :: rest').length ≠ 1 := by simp
      rw [show InterfaceName.from_bytes (b0 :: r1 :: rest') =
            (if b0 == 46 then .error .nameBeginDot
             else if isNameStart b0 then
               (InterfaceName.loop (b0 :: r1 :: rest').length 0 b0
                 (r1 :: rest')).map fun _ => b0 :: r1 :: rest'
             else .error .nameBeginChar) from rfl]
      by_cases hb46 : (b0 == 46) = true
      · rw [if_pos hb46]
        have hb : b0 = 46 := by simpa using hb46
        subst hb
        have hnb : nulBody ((46 : Nat) :: r1 :: rest') =
            46 :: nulBody (r1 :: rest') := nulBody_cons_ne 46 _ (by decide)
        rw [hnb]
        simp only [isAccept, Bool.false_eq_true, false_iff, not_and]
        intro _
        simp [ifaceGrammar, splitDot_all_cons_dot]
      · rw [if_neg hb46]
        by_cases hns : isNameStart b0 = true
        · rw [if_pos hns, isAccept_map, isAccept_true_iff,
            (ifaceloop_charact _ hblen (r1 :: rest')).1 0 b0
              (isElemChar_of_isNameStart b0 hns)]
          have hb0 : b0 ≠ 0 := by
            simpa using isNameStart_ne_zero b0 hns
          have hnb : nulBody (b0 :: r1 :: rest') =
              b0 :: nulBody (r1 :: rest') :=
            nulBody_cons_ne b0 _ (by simpa using hb0)
          rw [hnb]
          obtain ⟨e, es, he, hce⟩ :=
            splitDot_cons_ne b0 (nulBody (r1 :: rest')) (by simpa using hb46)
          have hlen : (splitDot (b0 :: nulBody (r1 :: rest'))).length =
              countDots (nulBody (r1 :: rest')) + 1 := by
            rw [hce]
            have := splitDot_length (nulBody (r1 :: rest'))
            rw [he] at this
            simpa using this
          have hall : (splitDot (b0 :: nulBody (r1 :: rest'))).all ifaceElemOk =
              restElemsOk (nulBody (r1 :: rest')) :=
            splitDot_all_cons_start b0 _ hns
          constructor
          · rintro ⟨hm, hro, hcd⟩
            refine ⟨List.mem_cons_of_mem _ hm, ?_⟩
            simp only [ifaceGrammar, hlen, hall, hro, Bool.and_true,
              decide_eq_true_eq]
            omega
          · rintro ⟨hm, hg⟩
            simp only [ifaceGrammar, hlen, hall, Bool.and_eq_true,
              decide_eq_true_eq] at hg
            have hm' : 0 ∈ r1 :: rest' := by
              rcases List.mem_cons.mp hm with h | h
              · exact absurd h.symm hb0
              · exact h
            exact ⟨hm', hg.2, by omega⟩
        · rw [if_neg hns]
          simp only [isAccept, Bool.false_eq_true, false_iff, not_and]
          intro _
          by_cases hb0 : b0 = 0
          · subst hb0
            rw [nulBody_cons_nul]
            simp [ifaceGrammar, splitDot, ifaceElemOk]
          · rw [nulBody_cons_ne b0 _ (by simpa using hb0)]
            simp only [ifaceGrammar,
              splitDot_all_cons_nostart b0 _ (by simpa using hns)
                (by simpa using hb46),
              Bool.and_false]
            simp

/-- Witness-style instance of C5 at the repository's own test vectors:
`"a.b\0"` satisfies both sides, `"a\0"` (no dot) fails both sides. -/
theorem c5_witness :
    (isAccept (InterfaceName.from_bytes [97, 46, 98, 0]) = true ↔
      ((0 : Nat) ∈ [97, 46, 98, 0] ∧ ifaceGrammar (nulBody [97, 46, 98, 0]) = true)) ∧
    (isAccept (InterfaceName.from_bytes [97, 0]) = true ↔
      ((0 : Nat) ∈ [97, 0] ∧ ifaceGrammar (nulBody [97, 0]) = true)) :=
  ⟨c5_interface_accept_iff [97, 46, 98, 0], c5_interface_accept_iff [97, 0]⟩

end RustSystemd
